import Mathlib

/-!
# Verification of the safe call/resume subsystem of lua-primer

Shallow embedding of the repository sources:

* `src/unnamed/part_000`  — `primer::maybe_int` and the `stack_space_needed` trait
* `src/include/primer/detail/stack_push_each_helper.hpp` — the stack-budget estimator
* `src/unnamed/part_001`  — `pcall_helper`, `resume_helper`, `fcn_call`, `resume_call`
  and the free call/resume entry points
* `src/include/primer/bound_function.hpp` — the capability token and its protected
  call surfaces
* `src/include/primer/container/visit_struct.hpp` — the struct read visitor and its
  error-context accumulation

The Lua C API itself (stack, `lua_pcall`, `lua_resume`, ...) is an external
collaborator; it is modelled from its documented semantics on an explicit stack
(a `List` of values, bottom of the stack first, so 1-based Lua indices map to
list position `i - 1`).  Repository code that the claims depend on but that is
not shown under `src/` (`lua_ref`, `pop_error`, `check_stack_push_each`,
`mem_pcall`, `pop_n`, `primer::error`) is modelled from the specification; each
such definition carries a doc comment starting with `Modelled from the spec:`.
-/

namespace primer

/-! ## Part A: `maybe_int` (src/unnamed/part_000) -/

/-- Transcribes `primer::maybe_int`: `int value; bool unknown;`.
The default constructor gives `value = 0, unknown = true`;
the explicit `maybe_int(int v)` constructor gives `unknown = false`. -/
structure maybe_int where
  value : Int
  unknown : Bool
deriving DecidableEq, Repr

/-- The default constructor `maybe_int()`: value 0, unknown. -/
def maybe_int.mkUnknown : maybe_int := ⟨0, true⟩

/-- The explicit constructor `maybe_int(int v)`. -/
def maybe_int.ofInt (v : Int) : maybe_int := ⟨v, false⟩

/-- `operator bool()`: true iff the value is known. -/
def maybe_int.isKnown (m : maybe_int) : Bool := !m.unknown

/-- Transcribes `maybe_int::lifted<F>::operator()`:
`(a && b) ? maybe_int{f(*a, *b)} : maybe_int{}`. -/
def maybe_int.liftedApply (f : Int → Int → Int) (a b : maybe_int) : maybe_int :=
  if (a.isKnown && b.isKnown) = true then .ofInt (f a.value b.value) else .mkUnknown

/-- Transcribes `maybe_int::max_int`. -/
def maybe_int.max_int (a b : Int) : Int := if a > b then a else b

/-- Transcribes `maybe_int::add_int`. -/
def maybe_int.add_int (a b : Int) : Int := a + b

/-- `operator+` on `maybe_int`: `lift(add_int)`. -/
def maybe_int.add (a b : maybe_int) : maybe_int := maybe_int.liftedApply maybe_int.add_int a b

/-- Transcribes `maybe_int::right_associate` of a binary operation over
a non-empty argument pack (the unary base case returns its argument). -/
def maybe_int.right_associate (f : maybe_int → maybe_int → maybe_int) :
    List maybe_int → maybe_int
  | [] => .mkUnknown
  | [a] => a
  | a :: b :: rest => f a (maybe_int.right_associate f (b :: rest))

/-- Transcribes `maybe_int::max(args...)`: `right_associate(lift(max_int), args...)`. -/
def maybe_int.maxList (l : List maybe_int) : maybe_int :=
  maybe_int.right_associate (maybe_int.liftedApply maybe_int.max_int) l

/-- Transcribes the `stack_space_needed<T>` trait of `src/unnamed/part_000`:
if the push trait declares a `stack_space_needed` member the trait holds it
(converted to `maybe_int`), otherwise the primary template yields the default
`maybe_int{}`, i.e. unknown.  `declared` is the optional member. -/
def stack_space_needed (declared : Option maybe_int) : maybe_int :=
  match declared with
  | none => .mkUnknown
  | some m => m

/-! ## Part A continued: the stack-budget estimator
(src/include/primer/detail/stack_push_each_helper.hpp) -/

/-- Transcribes the pack expansion `(stack_space_needed<push<Args>>::value + Is)...`
of `stack_push_each_helper::impl<SizeList<Is...>>`, with `Is = k, k+1, ...`. -/
def push_costs_from (k : Nat) : List maybe_int → List maybe_int
  | [] => []
  | c :: cs => maybe_int.add c (.ofInt k) :: push_costs_from (k + 1) cs

/-- Transcribes `stack_push_each_helper<Args...>::value()`:
`maybe_int::max(maybe_int{0}, (cost_of<Args> + Is)...)` where the cost list
holds `stack_space_needed<push<Ai>>::value` for each argument type `Ai`. -/
def stack_push_each_value (costs : List maybe_int) : maybe_int :=
  maybe_int.maxList (.ofInt 0 :: push_costs_from 0 costs)

/-- The margin contract as the spec words it: the terms
`(stack cost of pushing Ai) + (number of items already pushed before it)`,
for positions `k, k+1, ...`. -/
def spec_margin_terms (k : Nat) : List maybe_int → List Int
  | [] => []
  | c :: cs => (c.value + k) :: spec_margin_terms (k + 1) cs

/-- The Stack-Budget Estimator contract, following the specification text:
the maximum over every position of (declared cost + items already pushed),
bounded below by 0; unknown when any individual declared cost is unknown. -/
def spec_stack_margin (costs : List maybe_int) : maybe_int :=
  if costs.any (fun c => c.unknown) = true then .mkUnknown
  else .ofInt ((spec_margin_terms 0 costs).foldr max 0)

/-! Helper lemmas for the estimator refinement. -/

theorem maybe_int.max_int_eq_max (a b : Int) : maybe_int.max_int a b = max a b := by
  rw [maybe_int.max_int]
  rcases le_or_lt a b with h | h
  · rw [if_neg (by omega), max_eq_right h]
  · rw [if_pos h, max_eq_left (le_of_lt h)]

theorem foldr_max_swap (T : List Int) (a b : Int) :
    max a (T.foldr max b) = max b (T.foldr max a) := by
  induction T generalizing a b with
  | nil => exact max_comm a b
  | cons x T ih =>
    simp only [List.foldr_cons]
    rw [max_left_comm a x, ih a b, max_left_comm x b]

theorem maxList_push_costs (costs : List maybe_int) (x : maybe_int) (k : Nat)
    (hx : x.unknown = true → x.value = 0) :
    maybe_int.maxList (x :: push_costs_from k costs) =
      if (x.unknown || costs.any (fun c => c.unknown)) = true then .mkUnknown
      else .ofInt ((spec_margin_terms k costs).foldr max x.value) := by
  induction costs generalizing x k with
  | nil =>
    obtain ⟨v, u⟩ := x
    cases u with
    | true =>
      have hv : v = 0 := hx rfl
      subst hv
      simp [push_costs_from, maybe_int.maxList, maybe_int.right_associate,
        spec_margin_terms, maybe_int.mkUnknown]
    | false =>
      simp [push_costs_from, maybe_int.maxList, maybe_int.right_associate,
        spec_margin_terms, maybe_int.ofInt]
  | cons c cs ih =>
    have hstep : maybe_int.maxList (x :: push_costs_from k (c :: cs)) =
        maybe_int.liftedApply maybe_int.max_int x
          (maybe_int.maxList (maybe_int.add c (.ofInt k) :: push_costs_from (k + 1) cs)) := by
      simp only [push_costs_from, maybe_int.maxList]
      cases cs <;> rfl
    have hcan : (maybe_int.add c (.ofInt k)).unknown = true →
        (maybe_int.add c (.ofInt k)).value = 0 := by
      rw [maybe_int.add, maybe_int.liftedApply]
      split
      · intro h; simp [maybe_int.ofInt] at h
      · intro _; rfl
    rw [hstep, ih _ _ hcan]
    cases hc : c.unknown with
    | true =>
      have hadd : (maybe_int.add c (.ofInt k)).unknown = true := by
        rw [maybe_int.add, maybe_int.liftedApply,
          if_neg (by simp [maybe_int.isKnown, hc])]
        rfl
      rw [if_pos (by rw [hadd]; rfl), if_pos (by simp [hc]),
        maybe_int.liftedApply, if_neg (by simp [maybe_int.isKnown, maybe_int.mkUnknown])]
    | false =>
      have hadd : maybe_int.add c (.ofInt k) = .ofInt (c.value + k) := by
        rw [maybe_int.add, maybe_int.liftedApply,
          if_pos (by simp [maybe_int.isKnown, hc, maybe_int.ofInt])]
        rfl
      rw [hadd]
      cases hrest : cs.any (fun c => c.unknown) with
      | true =>
        rw [if_pos (by simp [maybe_int.ofInt, hrest]), if_pos (by simp [hc, hrest]),
          maybe_int.liftedApply, if_neg (by simp [maybe_int.isKnown, maybe_int.mkUnknown])]
      | false =>
        rw [if_neg (by simp [maybe_int.ofInt, hrest])]
        cases hxu : x.unknown with
        | true =>
          rw [if_pos (by simp [hxu]),
            maybe_int.liftedApply, if_neg (by simp [maybe_int.isKnown, hxu])]
        | false =>
          rw [if_neg (by simp [hxu, hc, hrest]),
            maybe_int.liftedApply, if_pos (by simp [maybe_int.isKnown, hxu, maybe_int.ofInt])]
          rw [spec_margin_terms]
          simp only [List.foldr_cons, maybe_int.ofInt, maybe_int.max_int_eq_max]
          rw [foldr_max_swap]

/-- The estimator agrees with the spec contract (shared refinement lemma). -/
theorem stack_push_each_eq_spec (costs : List maybe_int) :
    stack_push_each_value costs = spec_stack_margin costs := by
  rw [stack_push_each_value, spec_stack_margin,
    maxList_push_costs costs (.ofInt 0) 0 (by simp [maybe_int.ofInt])]
  simp [maybe_int.ofInt]

/-- Any unknown cost anywhere in the list makes the whole margin unknown. -/
theorem stack_push_each_unknown_mem (pre post : List maybe_int) (v : Int) :
    stack_push_each_value (pre ++ ⟨v, true⟩ :: post) = .mkUnknown := by
  rw [stack_push_each_eq_spec, spec_stack_margin, if_pos]
  simp

/-- Monotonicity of the spec terms in the starting index. -/
theorem spec_margin_terms_mono (costs : List maybe_int) (k : Nat) (b : Int) :
    (spec_margin_terms k costs).foldr max b ≤
      (spec_margin_terms (k + 1) costs).foldr max b := by
  induction costs generalizing k with
  | nil => simp [spec_margin_terms]
  | cons c cs ih =>
    simp only [spec_margin_terms, List.foldr_cons]
    have h1 : c.value + (k : Int) ≤ c.value + ((k : Nat) + 1 : Nat) := by push_cast; omega
    exact max_le_max h1 (ih (k + 1))

/-! ## Part B: model of the Lua C API

The VM is external to the subsystem; the primitives below model its documented
semantics.  A stack is a `List LValue` with the bottom of the stack first, so
the 1-based Lua index `i` denotes list position `i - 1` and `lua_gettop` is the
list length. -/

/-- Atomic Lua values, enough to express arguments, results and error values. -/
inductive LAtom where
  | anil
  | num (n : Int)
  | str (s : String)
deriving DecidableEq, Repr

/-- What a VM-resident callable does when invoked: return values normally, or
raise an error value through the non-local-jump protocol. -/
inductive FnBehavior where
  | returns (outs : List LAtom)
  | raises (e : LAtom)
deriving DecidableEq, Repr

/-- A Lua stack slot: an atom, a callable, the `debug.traceback` handler
function, or an error value that the traceback handler has been applied to. -/
inductive LValue where
  | atom (a : LAtom)
  | fn (b : FnBehavior)
  | tracebackFn
  | traced (a : LAtom)
deriving DecidableEq, Repr

/-- One VM environment: its stack, its configured capacity (the bound enforced
by `lua_checkstack`), and an instrumentation log of every callable the VM has
actually invoked (used to state that failed calls never invoke the callable). -/
structure LuaState where
  stack : List LValue
  capacity : Nat
  invoked : List FnBehavior
deriving DecidableEq, Repr

def lua_gettop (s : LuaState) : Nat := s.stack.length

def stack_push (s : LuaState) (v : LValue) : LuaState :=
  { s with stack := s.stack ++ [v] }

def lua_pop (s : LuaState) (n : Nat) : LuaState :=
  { s with stack := s.stack.take (s.stack.length - n) }

/-- `lua_absindex`: a nonnegative index is absolute already; a negative index
counts down from the top. -/
def lua_absindex (s : LuaState) (idx : Int) : Int :=
  if 0 ≤ idx then idx else (s.stack.length : Int) + idx + 1

/-- `lua_settop`: truncates the stack to the given index, padding with `nil`
when the index exceeds the current top. -/
def lua_settop (s : LuaState) (idx : Int) : LuaState :=
  let n := (lua_absindex s idx).toNat
  { s with stack := s.stack.take n ++ List.replicate (n - s.stack.length) (.atom .anil) }

/-- `lua_insert`: rotates the top element down into the given position. -/
def lua_insert (s : LuaState) (idx : Int) : LuaState :=
  match s.stack.getLast? with
  | none => s
  | some v =>
    let p := (lua_absindex s idx).toNat
    { s with stack := s.stack.dropLast.take (p - 1) ++ v :: s.stack.dropLast.drop (p - 1) }

/-- `lua_remove`: removes the element at the given position. -/
def lua_remove (s : LuaState) (idx : Int) : LuaState :=
  let p := (lua_absindex s idx).toNat
  { s with stack := s.stack.take (p - 1) ++ s.stack.drop p }

/-- `lua_checkstack`: the reservation succeeds iff the configured capacity
admits `n` more slots. -/
def lua_checkstack (s : LuaState) (n : Nat) : Bool :=
  decide (s.stack.length + n ≤ s.capacity)

/-- `lua_pcall` / `lua_resume` adjust the produced values to the requested
count (`-1` is `LUA_MULTRET`: keep all), padding with `nil`. -/
def luaAdjust (nret : Int) (vs : List LValue) : List LValue :=
  if nret < 0 then vs
  else vs.take nret.toNat ++ List.replicate (nret.toNat - vs.length) (.atom .anil)

/-- The message handler slot consulted by `lua_pcall` (0 means no handler). -/
def handler_at (s : LuaState) (msgh : Nat) : Option LValue :=
  if msgh = 0 then none else s.stack.get? (msgh - 1)

/-- Running the message handler over a raised error value: the traceback
function wraps the error value (marking that a traceback was appended). -/
def apply_handler (s : LuaState) (msgh : Nat) (e : LAtom) : LValue :=
  match handler_at s msgh with
  | some .tracebackFn => .traced e
  | _ => .atom e

/-- Model of `lua_pcall`: expects the callable followed by `narg` arguments on
top of the stack; consumes them; on normal return pushes the results adjusted
to `nret`, on error runs the message handler over the error value and pushes
the single resulting error value.  Status 0 is `LUA_OK`, 2 is `LUA_ERRRUN`.
Invoking the callable is recorded in the instrumentation log. -/
def lua_pcall (s : LuaState) (narg : Nat) (nret : Int) (msgh : Nat) : Int × LuaState :=
  let base := s.stack.length - narg - 1
  match s.stack.drop base with
  | .fn b :: _ =>
    match b with
    | .returns outs =>
      (0, { s with stack := s.stack.take base ++ luaAdjust nret (outs.map .atom),
                   invoked := s.invoked ++ [b] })
    | .raises e =>
      (2, { s with stack := s.stack.take base ++ [apply_handler s msgh e],
                   invoked := s.invoked ++ [b] })
  | _ =>
    (2, { s with stack := s.stack.take base ++
            [apply_handler s msgh (.str "attempt to call a non-function value")] })

/-- Model of `lua_call` with one argument and one result, as used to run the
traceback handler over an error value on the resume path. -/
def lua_call1 (s : LuaState) : LuaState :=
  let base := s.stack.length - 2
  match s.stack.drop base with
  | [.tracebackFn, .atom a] => { s with stack := s.stack.take base ++ [.traced a] }
  | [.fn (.returns outs), _] =>
    { s with stack := s.stack.take base ++ luaAdjust 1 (outs.map .atom) }
  | _ => s

/-- What one resumption step of the coroutine does; this is VM-internal state
that the subsystem only observes through the status code. -/
inductive ResumeOutcome where
  | returns (outs : List LAtom)
  | yields (outs : List LAtom)
  | raises (e : LAtom)
deriving DecidableEq, Repr

/-- Model of `lua_resume`: consumes the `narg` arguments on top (plus the
callable beneath them when the coroutine has not been started), then leaves
the returned/yielded values, or the single raised error value, in their place.
Status 0 is `LUA_OK`, 1 is `LUA_YIELD`, 2 is a runtime error. -/
def lua_resume (s : LuaState) (started : Bool) (out : ResumeOutcome) (narg : Nat) :
    Int × LuaState :=
  let consumed := narg + (if started then 0 else 1)
  let base := s.stack.length - consumed
  match out with
  | .returns outs => (0, { s with stack := s.stack.take base ++ outs.map .atom })
  | .yields outs => (1, { s with stack := s.stack.take base ++ outs.map .atom })
  | .raises e => (2, { s with stack := s.stack.take base ++ [.atom e] })

/-! ## Part B continued: error records and the missing support pieces -/

/-- One line of a `primer::error` message.  The structured constructors stand
for the exact message texts of the source (quote characters and the like are
not re-encoded): `cant_lock_vm` is the "Can not lock VM" line of
`bound_function::protected_call`, `in_field name` is the
"In field name: ..." context line of `visit_struct.hpp`, `with_traceback s`
is a VM error message with the traceback appended by the handler. -/
inductive error_line where
  | msg (s : String)
  | cant_lock_vm
  | insufficient_stack_space
  | bad_alloc
  | in_field (name : String)
  | with_traceback (s : String)
deriving DecidableEq, Repr

/-- Modelled from the spec: a `primer::error` record (error.hpp is not under
src/) carries a human-readable message, kept here as its list of lines;
`prepend_error_line` adds a context line in front without losing the rest. -/
structure primer_error where
  lines : List error_line
deriving DecidableEq, Repr

/-- Modelled from the spec: `primer::error::prepend_error_line` prepends one
context line to the message. -/
def prepend_error_line (l : error_line) (e : primer_error) : primer_error :=
  ⟨l :: e.lines⟩

def render_atom : LAtom → String
  | .anil => "nil"
  | .num n => toString n
  | .str s => s

def render_value : LValue → String
  | .atom a => render_atom a
  | .fn _ => "function"
  | .tracebackFn => "function"
  | .traced a => render_atom a

/-- Modelled from the spec: `primer::detail::pop_error`
(support/error_capture.hpp is not under src/): the error value on top of the
stack is converted to an error record and popped. -/
def pop_error (s : LuaState) (errCode : Int) : primer_error × LuaState :=
  let _ := errCode
  match s.stack.getLast? with
  | some (.traced a) => (⟨[.with_traceback (render_atom a)]⟩, lua_pop s 1)
  | some v => (⟨[.msg (render_value v)]⟩, lua_pop s 1)
  | none => (⟨[.msg "no error message"]⟩, s)

/-- A registry reference to one VM value.  `none` is the empty ref. -/
structure lua_ref where
  captured : Option LValue
deriving DecidableEq, Repr

/-- Modelled from the spec: the `lua_ref` constructor from a state
(lua_ref.hpp is not under src/): captures the top-of-stack value into the
registry and pops it; from an empty stack the ref is empty. -/
def mk_lua_ref (s : LuaState) : lua_ref × LuaState :=
  match s.stack.getLast? with
  | some v => (⟨some v⟩, lua_pop s 1)
  | none => (⟨none⟩, s)

/-- Modelled from the spec: `lua_ref::lock` returns a usable handle to the
owning environment, or none if it no longer exists.  The owning environment
and its liveness are the `env` argument (`none` = destroyed). -/
def lua_ref.lock (_r : lua_ref) (env : Option LuaState) : Option LuaState := env

/-- Modelled from the spec: `lua_ref::push(environment)` re-pushes the
referenced value; no effect and failure reported when the token is empty or
the environment is gone. -/
def lua_ref.push (r : lua_ref) (env : Option LuaState) : Bool × Option LuaState :=
  match env, r.captured with
  | some s, some v => (true, some (stack_push s v))
  | _, _ => (false, env)

/-- `lua_ref::reset`: invalidates the token eagerly. -/
def lua_ref.reset (_r : lua_ref) : lua_ref := ⟨none⟩

/-- `detail::push_cached<fetch_traceback_function>`: its net stack effect is to
push the (cached) `debug.traceback` function. -/
def push_cached_traceback (s : LuaState) : LuaState := stack_push s .tracebackFn

/-! ## Part B continued: transcription of src/unnamed/part_001 -/

/-- Transcribes `detail::pcall_helper`: pushes the traceback handler, rotates
it beneath the callable and the `narg` arguments, runs `lua_pcall` with that
handler, removes the handler, and returns the status code together with the
stack index at which results begin. -/
def pcall_helper (s : LuaState) (narg : Nat) (nret : Int) : (Int × Int) × LuaState :=
  let s1 := push_cached_traceback s
  let s2 := lua_insert s1 (-2 - (narg : Int))
  let ehi := lua_absindex s2 (-2 - (narg : Int))
  let r := lua_pcall s2 narg nret ehi.toNat
  let s4 := lua_remove r.2 ehi
  ((r.1, ehi), s4)

/-- Transcribes `detail::resume_helper`: computes the index where results will
begin, runs `lua_resume`, and on an error status applies the traceback handler
to the error value left on top. -/
def resume_helper (s : LuaState) (started : Bool) (out : ResumeOutcome) (narg : Nat) :
    (Int × Int) × LuaState :=
  let ridx := lua_absindex s (-1 - (narg : Int))
  let r := lua_resume s started out narg
  if r.1 ≠ 0 ∧ r.1 ≠ 1 then
    let s2 := push_cached_traceback r.2
    let s3 := lua_insert s2 (-2)
    ((r.1, ridx), lua_call1 s3)
  else
    ((r.1, ridx), r.2)

/-- The three return shapes of `detail::return_helper`: `void`, `lua_ref`,
`lua_ref_seq`. -/
inductive RetShape where
  | noRet
  | oneRet
  | allRet
deriving DecidableEq, Repr

/-- `return_helper<T>::nrets`: 0, 1, or `LUA_MULTRET`. -/
def RetShape.nrets : RetShape → Int
  | .noRet => 0
  | .oneRet => 1
  | .allRet => -1

/-- The `expected<T>` result of a call, for the three result types. -/
inductive CallResult where
  | ok_unit
  | ok_ref (r : lua_ref)
  | ok_seq (vs : List lua_ref)
  | err (e : primer_error)
deriving DecidableEq, Repr

/-- Modelled from the spec: `primer::pop_n` (lua_ref_seq.hpp is not under
src/) drains the top `n` values into a sequence of refs; a host allocation
failure while draining is reported as an error with the drained values still
removed (spec: stack neutrality holds on allocation failure during result
draining).  `alloc_ok` is the allocation oracle. -/
def pop_n (s : LuaState) (n : Nat) (alloc_ok : Bool) :
    Except primer_error (List lua_ref) × LuaState :=
  let s' := { s with stack := s.stack.take (s.stack.length - n) }
  if alloc_ok then
    (.ok ((s.stack.drop (s.stack.length - n)).map (fun v => ⟨some v⟩)), s')
  else
    (.error ⟨[.bad_alloc]⟩, s')

/-- Transcribes `detail::fcn_call` together with the three `return_helper`
specializations: run `pcall_helper` with the `nrets` of the shape; on error pop the
error value into an error record; on success drain the results according to
the shape (`void`: nothing; `lua_ref`: pop the single adjusted result;
`lua_ref_seq`: pop everything from the result index up). -/
def fcn_call (sh : RetShape) (alloc_ok : Bool) (s : LuaState) (narg : Nat) :
    CallResult × LuaState :=
  let r := pcall_helper s narg sh.nrets
  let code := r.1.1
  let ridx := r.1.2
  let s1 := r.2
  if code ≠ 0 then
    let pe := pop_error s1 code
    (.err pe.1, pe.2)
  else
    match sh with
    | .noRet => (.ok_unit, s1)
    | .oneRet =>
      let rr := mk_lua_ref s1
      (.ok_ref rr.1, rr.2)
    | .allRet =>
      let n := ((lua_gettop s1 : Int) - ridx + 1).toNat
      let rr := pop_n s1 n alloc_ok
      match rr.1 with
      | .ok vs => (.ok_seq vs, rr.2)
      | .error e => (.err e, rr.2)

/-- Transcribes `detail::resume_call`: run `resume_helper`; on `LUA_OK` or
`LUA_YIELD` drain results according to the shape, otherwise pop the error;
finally `lua_settop` back to just below the result index. -/
def resume_call (sh : RetShape) (alloc_ok : Bool) (s : LuaState) (started : Bool)
    (out : ResumeOutcome) (narg : Nat) : CallResult × LuaState :=
  let r := resume_helper s started out narg
  let code := r.1.1
  let ridx := r.1.2
  let s1 := r.2
  let step :=
    if code = 0 ∨ code = 1 then
      match sh with
      | .noRet => ((.ok_unit : CallResult), s1)
      | .oneRet =>
        let rr := mk_lua_ref s1
        ((.ok_ref rr.1 : CallResult), rr.2)
      | .allRet =>
        let n := ((lua_gettop s1 : Int) - ridx + 1).toNat
        let rr := pop_n s1 n alloc_ok
        (match rr.1 with
         | .ok vs => (.ok_seq vs : CallResult)
         | .error e => (.err e : CallResult), rr.2)
    else
      let pe := pop_error s1 code
      ((.err pe.1 : CallResult), pe.2)
  (step.1, lua_settop step.2 (ridx - 1))

/-- Free function `primer::fcn_call_no_ret`. -/
def fcn_call_no_ret (s : LuaState) (narg : Nat) : CallResult × LuaState :=
  fcn_call .noRet true s narg

/-- Free function `primer::fcn_call_one_ret`. -/
def fcn_call_one_ret (s : LuaState) (narg : Nat) : CallResult × LuaState :=
  fcn_call .oneRet true s narg

/-- Free function `primer::fcn_call` (the all-results shape). -/
def fcn_call_all (alloc_ok : Bool) (s : LuaState) (narg : Nat) : CallResult × LuaState :=
  fcn_call .allRet alloc_ok s narg

/-- Free function `primer::resume_no_ret`. -/
def resume_no_ret (s : LuaState) (started : Bool) (out : ResumeOutcome) (narg : Nat) :
    CallResult × LuaState :=
  resume_call .noRet true s started out narg

/-- Free function `primer::resume_one_ret`. -/
def resume_one_ret (s : LuaState) (started : Bool) (out : ResumeOutcome) (narg : Nat) :
    CallResult × LuaState :=
  resume_call .oneRet true s started out narg

/-- Free function `primer::resume` (the all-results shape). -/
def resume_all (alloc_ok : Bool) (s : LuaState) (started : Bool) (out : ResumeOutcome)
    (narg : Nat) : CallResult × LuaState :=
  resume_call .allRet alloc_ok s started out narg

/-! ## Part C: `bound_function` (src/include/primer/bound_function.hpp) -/

/-- `primer::bound_function`: a safe wrapper over a `lua_ref` to a function. -/
structure bound_function where
  ref_ : lua_ref
deriving DecidableEq, Repr

/-- `lua_isfunction` on a modelled stack value. -/
def is_function_value : LValue → Bool
  | .fn _ => true
  | .tracebackFn => true
  | _ => false

/-- Transcribes the primary `bound_function(lua_State * L)` constructor:
`ref_(lua_gettop(L) ? (lua_isfunction(L, -1) ? L : (lua_pop(L, 1), nullptr)) : nullptr)`
— capture the top item only if it is a function, popping it whether or not it
is one; from an empty stack, an empty token and no pop. -/
def bound_function.mk_from (L : LuaState) : bound_function × LuaState :=
  if lua_gettop L ≠ 0 then
    if is_function_value (L.stack.getLast?.getD (.atom .anil)) then
      let r := mk_lua_ref L
      (⟨r.1⟩, r.2)
    else
      (⟨⟨none⟩⟩, lua_pop L 1)
  else
    (⟨⟨none⟩⟩, L)

/-- `primer::push_each`: pushes each typed argument via its push trait; in
this model every argument is one basic value occupying one slot (push.hpp,
the collaborating marshalling layer, is external to the call subsystem). -/
def push_each (s : LuaState) (args : List LValue) : LuaState :=
  { s with stack := s.stack ++ args }

/-- Modelled from the spec: `detail::check_stack_push_each<int, Args...>`
(support/function_check_stack.hpp is not under src/): computes the stack
margin for pushing the callable (one slot, the `int` parameter) plus each
argument through the stack-budget estimator, and performs the native
capacity-reservation check for at least that many slots, a configured larger
default standing in for an unknown margin; failure is the
insufficient-stack-space error.  `nvals` is the number of single-slot pushes
(callable plus arguments), each declaring cost 1. -/
def check_stack_push_each (s : LuaState) (nvals : Nat) : Except primer_error Unit :=
  let margin := stack_push_each_value (List.replicate nvals (maybe_int.ofInt 1))
  let need : Nat := if margin.unknown then 20 else margin.value.toNat
  if lua_checkstack s need then .ok () else .error ⟨[.insufficient_stack_space]⟩

/-- Modelled from the spec: `detail::check_stack_push_n`
(support/function_check_stack.hpp is not under src/): the simpler total-count
reservation check used for pre-bundled reference sequences. -/
def check_stack_push_n (s : LuaState) (n : Nat) : Except primer_error Unit :=
  if lua_checkstack s n then .ok () else .error ⟨[.insufficient_stack_space]⟩

/-- Transcribes `bound_function::call_impl`: push the callable from its ref,
push each argument, and run `detail::fcn_call` with the argument count. -/
def call_impl (sh : RetShape) (alloc_ok : Bool) (s : LuaState) (fcn : lua_ref)
    (args : List LValue) : CallResult × LuaState :=
  let s1 := stack_push s (fcn.captured.getD (.atom .anil))
  let s2 := push_each s1 args
  fcn_call sh alloc_ok s2 args.length

/-- Transcribes `bound_function::call_impl2`: the same, with a pre-bundled
`lua_ref_seq` whose members are re-pushed. -/
def call_impl2 (sh : RetShape) (alloc_ok : Bool) (s : LuaState) (fcn : lua_ref)
    (inputs : List lua_ref) : CallResult × LuaState :=
  let s1 := stack_push s (fcn.captured.getD (.atom .anil))
  let s2 := push_each s1 (inputs.map (fun r => r.captured.getD (.atom .anil)))
  fcn_call sh alloc_ok s2 inputs.length

/-- Transcribes `bound_function::protected_call` (the variadic typed-argument
call surface behind `call_no_ret` / `call_one_ret` / `call`): the result
starts as the cannot-lock error; if the state locks, the stack-reservation
check runs; if it passes, `call_impl` runs under `primer::mem_pcall`.
`mem_pcall` (support/cpp_pcall.hpp is not under src/) is modelled from the
spec: it runs the marshalling-and-call step in a protected context, and a
memory allocation failure raised inside it is reported as a bad-alloc error
with the stack left balanced; `mem_ok` is its allocation oracle. -/
def protected_call (sh : RetShape) (alloc_ok mem_ok : Bool) (bf : bound_function)
    (env : Option LuaState) (args : List LValue) : CallResult × Option LuaState :=
  match bf.ref_.lock env with
  | none => (.err ⟨[.cant_lock_vm]⟩, env)
  | some L =>
    match check_stack_push_each L (1 + args.length) with
    | .error e => (.err e, some L)
    | .ok _ =>
      if mem_ok then
        let r := call_impl sh alloc_ok L bf.ref_ args
        (r.1, some r.2)
      else
        (.err ⟨[.bad_alloc]⟩, some L)

/-- Transcribes `bound_function::protected_call2` (the pre-bundled
reference-sequence call surface): identical flow, with the simpler
total-count reservation check `check_stack_push_n(L, 1 + inputs.size())`. -/
def protected_call2 (sh : RetShape) (alloc_ok mem_ok : Bool) (bf : bound_function)
    (env : Option LuaState) (inputs : List lua_ref) : CallResult × Option LuaState :=
  match bf.ref_.lock env with
  | none => (.err ⟨[.cant_lock_vm]⟩, env)
  | some L =>
    match check_stack_push_n L (1 + inputs.length) with
    | .error e => (.err e, some L)
    | .ok _ =>
      if mem_ok then
        let r := call_impl2 sh alloc_ok L bf.ref_ inputs
        (r.1, some r.2)
      else
        (.err ⟨[.bad_alloc]⟩, some L)

/-- How many values a call result actually retains (in the sense of the spec:
values held by the returned result object). -/
def CallResult.retained_count : CallResult → Nat
  | .ok_unit => 0
  | .ok_ref r => if r.captured.isSome then 1 else 0
  | .ok_seq vs => vs.length
  | .err _ => 0

/-! ## Part D: struct reading and error-context accumulation
(src/include/primer/container/visit_struct.hpp) -/

/-- The shape of a value being read back from the stack, as far as the
error-propagation logic of `read_helper` is concerned: a leaf field read by
its own (external) read trait, which either succeeds or fails with some error
record, or a visitable structure read as a table field-by-field. -/
inductive Schema where
  | leaf_ok
  | leaf_fail (e : primer_error)
  | table (fields : List (String × Schema))

mutual

/-- Transcribes `traits::read<T>::from_stack` for visitable structures: visit
the fields in order with `detail::read_helper`; the table fetch/pop of each
field is stack-neutral and does not affect the message, so only the error flow
is represented. -/
def schema_read : Schema → Except primer_error Unit
  | .leaf_ok => .ok ()
  | .leaf_fail e => .error e
  | .table fields => read_fields fields

/-- Transcribes `detail::read_helper::operator()`: once a field fails,
later fields are skipped (`if (!ok) return`); the error of the failing field gets
the "In field name ..." context line prepended. -/
def read_fields : List (String × Schema) → Except primer_error Unit
  | [] => .ok ()
  | (name, sub) :: rest =>
    match schema_read sub with
    | .ok _ => read_fields rest
    | .error e => .error (prepend_error_line (.in_field name) e)

end

/-! ## List helper lemmas -/

theorem take_len {α : Type*} (l m : List α) : (l ++ m).take l.length = l :=
  List.take_left _ _

theorem drop_len {α : Type*} (l m : List α) : (l ++ m).drop l.length = m :=
  List.drop_left _ _

theorem take_len1 {α : Type*} (l : List α) (x : α) (m : List α) :
    (l ++ x :: m).take (l.length + 1) = l ++ [x] := by
  have h : l ++ x :: m = (l ++ [x]) ++ m := by simp
  have h2 : l.length + 1 = (l ++ [x]).length := by simp
  rw [h, h2, take_len]

theorem drop_len1 {α : Type*} (l : List α) (x : α) (m : List α) :
    (l ++ x :: m).drop (l.length + 1) = m := by
  have h : l ++ x :: m = (l ++ [x]) ++ m := by simp
  have h2 : l.length + 1 = (l ++ [x]).length := by simp
  rw [h, h2, drop_len]

theorem get_len {α : Type*} (l : List α) (x : α) (m : List α) :
    (l ++ x :: m).get? l.length = some x := by
  rw [List.get?_append_right (Nat.le_refl _)]
  simp

/-! ## The protected-call flow -/

/-- The outcome of the VM call step as a function of the callee value: status
code and the values it leaves in place of the frame (with a traceback-wrapped
error value on failure, since `pcall_helper` installs the traceback handler). -/
def pcall_outcome (f : LValue) (nret : Int) : Int × List LValue :=
  match f with
  | .fn (.returns outs) => (0, luaAdjust nret (outs.map .atom))
  | .fn (.raises e) => (2, [.traced e])
  | _ => (2, [.traced (.str "attempt to call a non-function value")])

/-- Which callables the VM invokes during the call step. -/
def pcall_invoked (f : LValue) : List FnBehavior :=
  match f with
  | .fn b => [b]
  | _ => []

theorem pcall_helper_flow (S args : List LValue) (f : LValue) (cap : Nat)
    (log : List FnBehavior) (nret : Int) :
    pcall_helper ⟨S ++ f :: args, cap, log⟩ args.length nret =
      (((pcall_outcome f nret).1, (S.length : Int) + 1),
        ⟨S ++ (pcall_outcome f nret).2, cap, log ++ pcall_invoked f⟩) := by
  have h2 : lua_insert (push_cached_traceback ⟨S ++ f :: args, cap, log⟩)
      (-2 - (args.length : Int)) = ⟨S ++ .tracebackFn :: f :: args, cap, log⟩ := by
    have hg : ((S ++ f :: args) ++ [LValue.tracebackFn]).getLast? = some .tracebackFn :=
      List.getLast?_concat _
    have hp : (lua_absindex ⟨(S ++ f :: args) ++ [.tracebackFn], cap, log⟩
        (-2 - (args.length : Int))).toNat = S.length + 1 := by
      rw [lua_absindex, if_neg (by omega)]
      simp only [List.length_append, List.length_cons, List.length_nil]
      omega
    simp only [push_cached_traceback, stack_push, lua_insert, hg, hp]
    have hd : ((S ++ f :: args) ++ [LValue.tracebackFn]).dropLast = S ++ f :: args :=
      List.dropLast_concat
    simp only [hd, Nat.add_sub_cancel, take_len, drop_len]
  have hehi : lua_absindex (⟨S ++ .tracebackFn :: f :: args, cap, log⟩ : LuaState)
      (-2 - (args.length : Int)) = (S.length : Int) + 1 := by
    rw [lua_absindex, if_neg (by omega)]
    simp only [List.length_append, List.length_cons]
    push_cast
    omega
  have hpc : lua_pcall ⟨S ++ .tracebackFn :: f :: args, cap, log⟩ args.length nret
      ((S.length : Int) + 1).toNat =
      ((pcall_outcome f nret).1,
        ⟨(S ++ [.tracebackFn]) ++ (pcall_outcome f nret).2, cap,
          log ++ pcall_invoked f⟩) := by
    have hbase : (S ++ LValue.tracebackFn :: f :: args).length - args.length - 1 =
        S.length + 1 := by
      simp only [List.length_append, List.length_cons]
      omega
    have htop : ((S.length : Int) + 1).toNat = S.length + 1 := by omega
    have hdrop : (S ++ LValue.tracebackFn :: f :: args).drop (S.length + 1) = f :: args :=
      drop_len1 S LValue.tracebackFn (f :: args)
    have htake : (S ++ LValue.tracebackFn :: f :: args).take (S.length + 1) =
        S ++ [LValue.tracebackFn] := by
      have := take_len1 S LValue.tracebackFn (f :: args)
      simpa using this
    have hh : apply_handler ⟨S ++ .tracebackFn :: f :: args, cap, log⟩ (S.length + 1) =
        fun e => LValue.traced e := by
      funext e
      rw [apply_handler, handler_at, if_neg (by omega)]
      simp only [Nat.add_sub_cancel, get_len]
    cases f with
    | fn b =>
      cases b with
      | returns outs =>
        simp only [lua_pcall, hbase, htop, hdrop, htake, pcall_outcome, pcall_invoked]
      | raises e =>
        simp only [lua_pcall, hbase, htop, hdrop, htake, pcall_outcome, pcall_invoked]
        rw [show apply_handler ⟨S ++ .tracebackFn :: .fn (.raises e) :: args, cap, log⟩
          (S.length + 1) e = LValue.traced e from congrFun (by simpa using hh) e]
    | atom a =>
      simp only [lua_pcall, hbase, htop, hdrop, htake, pcall_outcome, pcall_invoked]
      rw [show apply_handler ⟨S ++ .tracebackFn :: .atom a :: args, cap, log⟩
        (S.length + 1) (.str "attempt to call a non-function value") =
        LValue.traced (.str "attempt to call a non-function value") from
        congrFun (by simpa using hh) _]
      simp
    | tracebackFn =>
      simp only [lua_pcall, hbase, htop, hdrop, htake, pcall_outcome, pcall_invoked]
      rw [show apply_handler ⟨S ++ .tracebackFn :: .tracebackFn :: args, cap, log⟩
        (S.length + 1) (.str "attempt to call a non-function value") =
        LValue.traced (.str "attempt to call a non-function value") from
        congrFun (by simpa using hh) _]
      simp
    | traced a =>
      simp only [lua_pcall, hbase, htop, hdrop, htake, pcall_outcome, pcall_invoked]
      rw [show apply_handler ⟨S ++ .tracebackFn :: .traced a :: args, cap, log⟩
        (S.length + 1) (.str "attempt to call a non-function value") =
        LValue.traced (.str "attempt to call a non-function value") from
        congrFun (by simpa using hh) _]
      simp
  have hrem : lua_remove
      (⟨(S ++ [.tracebackFn]) ++ (pcall_outcome f nret).2, cap,
        log ++ pcall_invoked f⟩ : LuaState) ((S.length : Int) + 1) =
      ⟨S ++ (pcall_outcome f nret).2, cap, log ++ pcall_invoked f⟩ := by
    have hp : (lua_absindex (⟨(S ++ [.tracebackFn]) ++ (pcall_outcome f nret).2, cap,
        log ++ pcall_invoked f⟩ : LuaState) ((S.length : Int) + 1)).toNat = S.length + 1 := by
      rw [lua_absindex, if_pos (by omega)]
      omega
    simp only [lua_remove, hp, Nat.add_sub_cancel]
    have ht : ((S ++ [LValue.tracebackFn]) ++ (pcall_outcome f nret).2).take S.length = S := by
      rw [List.append_assoc, take_len]
    have hd : ((S ++ [LValue.tracebackFn]) ++ (pcall_outcome f nret).2).drop (S.length + 1) =
        (pcall_outcome f nret).2 := by
      rw [show S.length + 1 = (S ++ [LValue.tracebackFn]).length by simp, drop_len]
    rw [ht, hd]
  simp only [pcall_helper, h2, hehi, hpc, hrem]

/-! ## Result-adjustment and unwinding lemmas -/

theorem luaAdjust_zero (vs : List LValue) : luaAdjust 0 vs = [] := by
  simp [luaAdjust]

theorem luaAdjust_one (vs : List LValue) : ∃ y, luaAdjust 1 vs = [y] := by
  cases vs with
  | nil => exact ⟨.atom .anil, by simp [luaAdjust]⟩
  | cons v rest => exact ⟨v, by simp [luaAdjust]⟩

theorem luaAdjust_neg (vs : List LValue) : luaAdjust (-1) vs = vs := by
  simp [luaAdjust]

theorem mk_lua_ref_last (S : List LValue) (y : LValue) (cap : Nat)
    (log : List FnBehavior) :
    mk_lua_ref ⟨S ++ [y], cap, log⟩ = (⟨some y⟩, ⟨S, cap, log⟩) := by
  simp only [mk_lua_ref, List.getLast?_concat, lua_pop]
  have h : (S ++ [y]).length - 1 = S.length := by simp
  rw [h, take_len]

theorem pop_error_traced (S : List LValue) (a : LAtom) (cap : Nat)
    (log : List FnBehavior) (c : Int) :
    pop_error ⟨S ++ [.traced a], cap, log⟩ c =
      (⟨[.with_traceback (render_atom a)]⟩, ⟨S, cap, log⟩) := by
  simp only [pop_error, List.getLast?_concat, lua_pop]
  have h : (S ++ [LValue.traced a]).length - 1 = S.length := by simp
  rw [h, take_len]

theorem pop_n_state (s : LuaState) (n : Nat) (a : Bool) :
    (pop_n s n a).2 = { s with stack := s.stack.take (s.stack.length - n) } := by
  rw [pop_n]
  split <;> rfl

theorem settop_length (t : LuaState) (m : Nat) :
    (lua_settop t ((m : Nat) : Int)).stack.length = m := by
  rw [lua_settop, lua_absindex, if_pos (by omega)]
  simp only [Int.toNat_natCast, List.length_append, List.length_take,
    List.length_replicate]
  omega

theorem settop_exact (S : List LValue) (cap : Nat) (log : List FnBehavior) :
    lua_settop ⟨S, cap, log⟩ ((S.length : Nat) : Int) = ⟨S, cap, log⟩ := by
  rw [lua_settop, lua_absindex, if_pos (by omega)]
  simp

/-- Stack neutrality of `detail::fcn_call`: whatever the callee value, the
shape, the results and the allocation outcome, the callable/argument frame and
all results are gone from the stack afterwards. -/
theorem fcn_call_stack (sh : RetShape) (alloc_ok : Bool) (S args : List LValue)
    (f : LValue) (cap : Nat) (log : List FnBehavior) :
    ((fcn_call sh alloc_ok ⟨S ++ f :: args, cap, log⟩ args.length).2).stack = S := by
  simp only [fcn_call, pcall_helper_flow]
  cases f with
  | fn b =>
    cases b with
    | returns outs =>
      simp only [pcall_outcome]
      rw [if_neg (by simp)]
      cases sh with
      | noRet => simp [RetShape.nrets, luaAdjust_zero]
      | oneRet =>
        obtain ⟨y, hy⟩ := luaAdjust_one (outs.map .atom)
        simp only [RetShape.nrets, hy, mk_lua_ref_last]
      | allRet =>
        simp only [RetShape.nrets, luaAdjust_neg, pop_n_state, lua_gettop]
        have hn : (((S ++ outs.map LValue.atom).length : Int) -
            ((S.length : Int) + 1) + 1).toNat = (outs.map LValue.atom).length := by
          simp only [List.length_append]
          omega
        have htk : (S ++ outs.map LValue.atom).length -
            (outs.map LValue.atom).length = S.length := by
          simp only [List.length_append]
          omega
        split
        · simp only [hn, htk, take_len]
        · simp only [hn, htk, take_len]
    | raises e =>
      simp only [pcall_outcome]
      rw [if_pos (by norm_num)]
      rw [pop_error_traced]
  | atom a =>
    simp only [pcall_outcome]
    rw [if_pos (by norm_num)]
    rw [pop_error_traced]
  | tracebackFn =>
    simp only [pcall_outcome]
    rw [if_pos (by norm_num)]
    rw [pop_error_traced]
  | traced a =>
    simp only [pcall_outcome]
    rw [if_pos (by norm_num)]
    rw [pop_error_traced]

/-- Stack neutrality of `bound_function::call_impl` relative to the locked
state: the pushed callable, the pushed arguments and all results are gone. -/
theorem call_impl_stack (sh : RetShape) (alloc_ok : Bool) (s : LuaState)
    (fcn : lua_ref) (args : List LValue) :
    ((call_impl sh alloc_ok s fcn args).2).stack = s.stack := by
  obtain ⟨T, cap, log⟩ := s
  simp only [call_impl, stack_push, push_each]
  rw [show (T ++ [fcn.captured.getD (.atom .anil)]) ++ args =
    T ++ (fcn.captured.getD (.atom .anil)) :: args by simp]
  exact fcn_call_stack sh alloc_ok T args _ cap log

/-- Stack neutrality of `bound_function::call_impl2`. -/
theorem call_impl2_stack (sh : RetShape) (alloc_ok : Bool) (s : LuaState)
    (fcn : lua_ref) (inputs : List lua_ref) :
    ((call_impl2 sh alloc_ok s fcn inputs).2).stack = s.stack := by
  obtain ⟨T, cap, log⟩ := s
  simp only [call_impl2, stack_push, push_each]
  rw [show (T ++ [fcn.captured.getD (.atom .anil)]) ++
      (inputs.map (fun r => r.captured.getD (.atom .anil))) =
    T ++ (fcn.captured.getD (.atom .anil)) ::
      (inputs.map (fun r => r.captured.getD (.atom .anil))) by simp]
  rw [show inputs.length = (inputs.map (fun r => r.captured.getD (.atom .anil))).length by
    simp]
  exact fcn_call_stack sh alloc_ok T _ _ cap log

/-- Stack neutrality of `bound_function::protected_call` on a live
environment, across every branch (reservation failure, marshalling allocation
failure, call success, VM error, draining failure). -/
theorem protected_call_stack (sh : RetShape) (a m : Bool) (bf : bound_function)
    (L : LuaState) (args : List LValue) :
    ((protected_call sh a m bf (some L) args).2).map LuaState.stack = some L.stack := by
  simp only [protected_call, lua_ref.lock]
  cases hc : check_stack_push_each L (1 + args.length) with
  | error e => simp
  | ok u =>
    cases m with
    | false => simp
    | true => simp [call_impl_stack]

/-- Stack neutrality of `bound_function::protected_call2` on a live
environment. -/
theorem protected_call2_stack (sh : RetShape) (a m : Bool) (bf : bound_function)
    (L : LuaState) (inputs : List lua_ref) :
    ((protected_call2 sh a m bf (some L) inputs).2).map LuaState.stack = some L.stack := by
  simp only [protected_call2, lua_ref.lock]
  cases hc : check_stack_push_n L (1 + inputs.length) with
  | error e => simp
  | ok u =>
    cases m with
    | false => simp
    | true => simp [call_impl2_stack]

/-! ## The resume flow -/

/-- The status code `lua_resume` reports for each outcome. -/
def resume_code : ResumeOutcome → Int
  | .returns _ => 0
  | .yields _ => 1
  | .raises _ => 2

/-- The values left on the thread stack after `resume_helper` ran: the
returned/yielded values, or the traceback-wrapped error value. -/
def resume_vals : ResumeOutcome → List LValue
  | .returns outs => outs.map .atom
  | .yields outs => outs.map .atom
  | .raises e => [.traced e]

theorem resume_helper_fresh (S args : List LValue) (f : LValue) (out : ResumeOutcome)
    (cap : Nat) (log : List FnBehavior) :
    resume_helper ⟨S ++ f :: args, cap, log⟩ false out args.length =
      ((resume_code out, (S.length : Int) + 1), ⟨S ++ resume_vals out, cap, log⟩) := by
  have hridx : lua_absindex (⟨S ++ f :: args, cap, log⟩ : LuaState)
      (-1 - (args.length : Int)) = (S.length : Int) + 1 := by
    rw [lua_absindex, if_neg (by omega)]
    simp only [List.length_append, List.length_cons]
    push_cast
    omega
  cases out with
  | returns outs =>
    simp only [resume_helper, lua_resume, hridx, resume_code, resume_vals]
    simp [take_len]
  | yields outs =>
    simp only [resume_helper, lua_resume, hridx, resume_code, resume_vals]
    simp [take_len]
  | raises e =>
    have hins : lua_insert ⟨S ++ [LValue.atom e, LValue.tracebackFn], cap, log⟩ (-2)
        = ⟨S ++ [LValue.tracebackFn, LValue.atom e], cap, log⟩ := by
      have hconc : S ++ [LValue.atom e, LValue.tracebackFn] =
          (S ++ [LValue.atom e]) ++ [LValue.tracebackFn] := by simp
      rw [hconc]
      have hp : (lua_absindex ⟨(S ++ [LValue.atom e]) ++ [.tracebackFn], cap, log⟩
          (-2 : Int)).toNat = S.length + 1 := by
        rw [lua_absindex, if_neg (by omega)]
        show ((((S ++ [LValue.atom e]) ++ [LValue.tracebackFn]).length : Int) +
          (-2) + 1).toNat = S.length + 1
        simp only [List.length_append, List.length_cons, List.length_nil]
        omega
      simp only [lua_insert, List.getLast?_concat, hp, List.dropLast_concat,
        Nat.add_sub_cancel, take_len, drop_len]
    have hcall : lua_call1 ⟨S ++ [LValue.tracebackFn, LValue.atom e], cap, log⟩
        = ⟨S ++ [LValue.traced e], cap, log⟩ := by
      have hb : (S ++ [LValue.tracebackFn, LValue.atom e]).length - 2 = S.length := by
        simp
      simp only [lua_call1, hb, take_len, drop_len]
    simp only [resume_helper, lua_resume, hridx, resume_code, resume_vals,
      push_cached_traceback, stack_push]
    simp [take_len, hins, hcall]

theorem resume_helper_started (args : List LValue) (out : ResumeOutcome)
    (cap : Nat) (log : List FnBehavior) :
    resume_helper ⟨args, cap, log⟩ true out args.length =
      ((resume_code out, 0), ⟨resume_vals out, cap, log⟩) := by
  have hridx : lua_absindex (⟨args, cap, log⟩ : LuaState)
      (-1 - (args.length : Int)) = 0 := by
    rw [lua_absindex, if_neg (by omega)]
    show (args.length : Int) + (-1 - (args.length : Int)) + 1 = 0
    omega
  cases out with
  | returns outs =>
    simp only [resume_helper, lua_resume, hridx, resume_code, resume_vals]
    simp
  | yields outs =>
    simp only [resume_helper, lua_resume, hridx, resume_code, resume_vals]
    simp
  | raises e =>
    have hins : lua_insert ⟨[LValue.atom e, LValue.tracebackFn], cap, log⟩ (-2)
        = ⟨[LValue.tracebackFn, LValue.atom e], cap, log⟩ := rfl
    have hcall : lua_call1 ⟨[LValue.tracebackFn, LValue.atom e], cap, log⟩
        = ⟨[LValue.traced e], cap, log⟩ := rfl
    simp only [resume_helper, lua_resume, hridx, resume_code, resume_vals,
      push_cached_traceback, stack_push]
    simp [hins, hcall]

/-- After any fresh resume (callable beneath the arguments), the final
`lua_settop` restores the thread stack to exactly the depth beneath the
callable, for every shape and outcome. -/
theorem resume_call_fresh_stack_len (sh : RetShape) (alloc_ok : Bool)
    (S args : List LValue) (f : LValue) (out : ResumeOutcome) (cap : Nat)
    (log : List FnBehavior) :
    ((resume_call sh alloc_ok ⟨S ++ f :: args, cap, log⟩ false out args.length).2).stack.length
      = S.length := by
  simp only [resume_call, resume_helper_fresh]
  rw [show (S.length : Int) + 1 - 1 = ((S.length : Nat) : Int) by omega]
  exact settop_length _ _

/-- `resume_call` on a fresh resume whose step errors: the traceback handler
is applied to the error value, the resulting record is returned, and the stack
is restored to the baseline beneath the callable. -/
theorem resume_call_fresh_raises (sh : RetShape) (alloc_ok : Bool)
    (S args : List LValue) (f : LValue) (e : LAtom) (cap : Nat)
    (log : List FnBehavior) :
    resume_call sh alloc_ok ⟨S ++ f :: args, cap, log⟩ false (.raises e) args.length =
      (.err ⟨[.with_traceback (render_atom e)]⟩, ⟨S, cap, log⟩) := by
  simp only [resume_call, resume_helper_fresh, resume_code, resume_vals]
  rw [if_neg (by norm_num)]
  rw [pop_error_traced]
  rw [show (S.length : Int) + 1 - 1 = ((S.length : Nat) : Int) by omega, settop_exact]

/-- `resume_call` on an already-started resume whose step errors: same
traceback treatment, stack restored to the empty baseline beneath the
arguments. -/
theorem resume_call_started_raises (sh : RetShape) (alloc_ok : Bool)
    (args : List LValue) (e : LAtom) (cap : Nat) (log : List FnBehavior) :
    resume_call sh alloc_ok ⟨args, cap, log⟩ true (.raises e) args.length =
      (.err ⟨[.with_traceback (render_atom e)]⟩, ⟨[], cap, log⟩) := by
  simp only [resume_call, resume_helper_started, resume_code, resume_vals]
  rw [if_neg (by norm_num)]
  have hpe : pop_error ⟨[LValue.traced e], cap, log⟩ 2 =
      (⟨[.with_traceback (render_atom e)]⟩, ⟨[], cap, log⟩) := by
    have h := pop_error_traced [] e cap log 2
    simpa using h
  rw [hpe]
  have hst : lua_settop ⟨([] : List LValue), cap, log⟩ ((0 : Int) - 1) =
      ⟨[], cap, log⟩ := rfl
  rw [hst]

/-! ## The margin of single-slot pushes, and the reservation checks -/

theorem replicate_one_no_unknown (m : Nat) :
    (List.replicate m (maybe_int.ofInt 1)).any (fun c => c.unknown) = false := by
  induction m with
  | zero => rfl
  | succ m ih =>
    rw [List.replicate_succ]
    simp [maybe_int.ofInt, ih]

theorem terms_replicate_foldr (m k : Nat) :
    ((spec_margin_terms k (List.replicate m (maybe_int.ofInt 1))).foldr max 0 : Int) =
      if m = 0 then 0 else (k : Int) + m := by
  induction m generalizing k with
  | zero => simp [spec_margin_terms]
  | succ m ih =>
    rw [List.replicate_succ, spec_margin_terms]
    simp only [List.foldr_cons, ih (k + 1)]
    rcases Nat.eq_zero_or_pos m with hm | hm
    · subst hm
      simp only [if_pos rfl, if_neg (Nat.succ_ne_zero 0), maybe_int.ofInt]
      rw [max_eq_left (by omega)]
      push_cast
      omega
    · rw [if_neg (by omega), if_neg (by omega)]
      simp only [maybe_int.ofInt]
      rw [max_eq_right (by push_cast; omega)]
      push_cast
      omega

/-- Pushing `m` single-slot values has margin exactly `m` (the running
high-water mark `max(0, 1+0, 1+1, ..., 1+(m-1))`). -/
theorem margin_replicate (m : Nat) :
    stack_push_each_value (List.replicate m (maybe_int.ofInt 1)) = .ofInt m := by
  rw [stack_push_each_eq_spec, spec_stack_margin,
    if_neg (by rw [replicate_one_no_unknown]; simp)]
  rw [terms_replicate_foldr]
  cases m with
  | zero => simp
  | succ m => simp

theorem check_stack_push_each_fail (L : LuaState) (n : Nat)
    (h : L.capacity < L.stack.length + n) :
    check_stack_push_each L n = .error ⟨[.insufficient_stack_space]⟩ := by
  have hneed : (if (maybe_int.ofInt (n : Int)).unknown = true then 20
      else (maybe_int.ofInt (n : Int)).value.toNat) = n := by
    simp [maybe_int.ofInt]
  simp only [check_stack_push_each]
  rw [margin_replicate, hneed]
  rw [if_neg (by simp [lua_checkstack]; omega)]

theorem check_stack_push_n_fail (L : LuaState) (n : Nat)
    (h : L.capacity < L.stack.length + n) :
    check_stack_push_n L n = .error ⟨[.insufficient_stack_space]⟩ := by
  rw [check_stack_push_n, if_neg (by simp [lua_checkstack]; omega)]

/-- The conservative order on margins: "unknown" is the top element (it stands
for "use the larger configured reserve"); between known margins, the integer
order. -/
def maybe_int.le_conservative (a b : maybe_int) : Prop :=
  b.unknown = true ∨ (a.unknown = false ∧ b.unknown = false ∧ a.value ≤ b.value)

end primer

namespace primer

/-! ## Claim theorems -/

/-- C1, counterexample: a one-return call through `bound_function`
(`protected_call` with the `lua_ref` shape) of a function returning one value
retains that value in the result, yet leaves the stack depth unchanged (0),
not at depth-before plus one as the claim states: the retained value is moved
off the stack into a host-side reference. -/
theorem c1_stack_neutrality_counterexample :
    (protected_call .oneRet true true ⟨⟨some (.fn (.returns [.str "x"]))⟩⟩
        (some ⟨[], 10, []⟩) []).1.retained_count = 1 ∧
    ((protected_call .oneRet true true ⟨⟨some (.fn (.returns [.str "x"]))⟩⟩
        (some ⟨[], 10, []⟩) []).2).map (fun t => t.stack.length) = some 0 ∧
    ¬ ((0 : Nat) = 0 + (protected_call .oneRet true true
        ⟨⟨some (.fn (.returns [.str "x"]))⟩⟩ (some ⟨[], 10, []⟩) []).1.retained_count) := by
  decide

/-- C1 (amended): for every call performed through the protected invocation
protocol and every outcome (success, VM error, allocation failure while
marshalling or draining), zero result values remain on the VM stack — retained
values are moved off the stack into host-side references.  The `bound_function`
call methods (`call_no_ret`/`call_one_ret`/`call`, both the variadic and the
reference-sequence argument forms) leave the stack exactly as deep as before
the call; the free resume variants, on a resume with the callable beneath the
arguments (a fresh start), leave it at the baseline beneath the callable. -/
theorem c1_stack_neutrality_amended :
    (∀ (sh : RetShape) (alloc_ok mem_ok : Bool) (bf : bound_function) (L : LuaState)
        (args : List LValue),
      ((protected_call sh alloc_ok mem_ok bf (some L) args).2).map LuaState.stack =
        some L.stack) ∧
    (∀ (sh : RetShape) (alloc_ok mem_ok : Bool) (bf : bound_function) (L : LuaState)
        (inputs : List lua_ref),
      ((protected_call2 sh alloc_ok mem_ok bf (some L) inputs).2).map LuaState.stack =
        some L.stack) ∧
    (∀ (sh : RetShape) (alloc_ok : Bool) (S args : List LValue) (f : LValue)
        (out : ResumeOutcome) (cap : Nat) (log : List FnBehavior),
      ((resume_call sh alloc_ok ⟨S ++ f :: args, cap, log⟩ false
          out args.length).2).stack.length = S.length) :=
  ⟨protected_call_stack, protected_call2_stack, resume_call_fresh_stack_len⟩

/-- C2: the stack-budget estimator yields exactly the spec margin — the
maximum, over every position `i`, of the cost declared by the i-th push trait
plus `i`, bounded below by 0 — and it is the unknown margin exactly when some
declared cost is unknown. -/
theorem c2_stack_margin_formula (costs : List maybe_int) :
    stack_push_each_value costs = spec_stack_margin costs ∧
    ((stack_push_each_value costs).unknown = true ↔
      costs.any (fun c => c.unknown) = true) := by
  refine ⟨stack_push_each_eq_spec costs, ?_⟩
  rw [stack_push_each_eq_spec, spec_stack_margin]
  cases h : costs.any (fun c => c.unknown) with
  | true => simp [maybe_int.mkUnknown]
  | false => simp [maybe_int.ofInt]

/-- C3: when the pre-call reservation check fails, both call surfaces return
the insufficient-stack-space error and leave the environment completely
untouched (same stack, same invocation log — the callable is never pushed,
marshalled or invoked). -/
theorem c3_insufficient_stack_short_circuit (sh : RetShape) (alloc_ok mem_ok : Bool)
    (bf : bound_function) (L : LuaState) (args : List LValue) (inputs : List lua_ref)
    (h1 : L.capacity < L.stack.length + (1 + args.length))
    (h2 : L.capacity < L.stack.length + (1 + inputs.length)) :
    protected_call sh alloc_ok mem_ok bf (some L) args =
      (.err ⟨[.insufficient_stack_space]⟩, some L) ∧
    protected_call2 sh alloc_ok mem_ok bf (some L) inputs =
      (.err ⟨[.insufficient_stack_space]⟩, some L) := by
  constructor
  · simp only [protected_call, lua_ref.lock,
      check_stack_push_each_fail L (1 + args.length) (by omega)]
  · simp only [protected_call2, lua_ref.lock,
      check_stack_push_n_fail L (1 + inputs.length) (by omega)]

theorem c3_insufficient_stack_short_circuit_witness :
    ((⟨[], 0, []⟩ : LuaState).capacity <
        (⟨[], 0, []⟩ : LuaState).stack.length + (1 + ([] : List LValue).length)) ∧
    (protected_call .noRet true true ⟨⟨none⟩⟩ (some ⟨[], 0, []⟩) [] =
        (.err ⟨[.insufficient_stack_space]⟩, some ⟨[], 0, []⟩) ∧
      protected_call2 .noRet true true ⟨⟨none⟩⟩ (some ⟨[], 0, []⟩) [] =
        (.err ⟨[.insufficient_stack_space]⟩, some ⟨[], 0, []⟩)) :=
  ⟨by decide, c3_insufficient_stack_short_circuit .noRet true true ⟨⟨none⟩⟩
    ⟨[], 0, []⟩ [] [] (by decide) (by decide)⟩

/-- C4: once the owning environment is destroyed (`none`), every call method
— any shape, either argument form — returns the cannot-lock error without any
VM operation; `push` on the token reports failure with no effect; `lock`
yields none. -/
theorem c4_dead_environment_behavior (sh : RetShape) (alloc_ok mem_ok : Bool)
    (bf : bound_function) (args : List LValue) (inputs : List lua_ref) :
    protected_call sh alloc_ok mem_ok bf none args = (.err ⟨[.cant_lock_vm]⟩, none) ∧
    protected_call2 sh alloc_ok mem_ok bf none inputs = (.err ⟨[.cant_lock_vm]⟩, none) ∧
    bf.ref_.push none = (false, none) ∧
    bf.ref_.lock none = none := by
  refine ⟨rfl, rfl, ?_, rfl⟩
  cases bf.ref_.captured <;> rfl

/-- C5: whenever the VM resumption primitive reports an error status, the
diagnostic traceback interceptor is applied to the error value before it is
converted into the returned error record (witnessed by the `with_traceback`
form of the record), and the stack is then restored to the pre-call baseline —
beneath the callable on a fresh start, the empty baseline beneath the
arguments on a subsequent resume. -/
theorem c5_resume_error_traceback :
    (∀ (sh : RetShape) (alloc_ok : Bool) (S args : List LValue) (f : LValue)
        (e : LAtom) (cap : Nat) (log : List FnBehavior),
      resume_call sh alloc_ok ⟨S ++ f :: args, cap, log⟩ false (.raises e) args.length =
        (.err ⟨[.with_traceback (render_atom e)]⟩, ⟨S, cap, log⟩)) ∧
    (∀ (sh : RetShape) (alloc_ok : Bool) (args : List LValue) (e : LAtom)
        (cap : Nat) (log : List FnBehavior),
      resume_call sh alloc_ok ⟨args, cap, log⟩ true (.raises e) args.length =
        (.err ⟨[.with_traceback (render_atom e)]⟩, ⟨[], cap, log⟩)) :=
  ⟨resume_call_fresh_raises, resume_call_started_raises⟩

/-- C6: constructing a `bound_function` from a state with a non-empty stack
always pops the top value: if it is a function the token captures it,
otherwise the token is empty — the value is removed either way. -/
theorem c6_capture_pops_always (S : List LValue) (v : LValue) (cap : Nat)
    (log : List FnBehavior) :
    bound_function.mk_from ⟨S ++ [v], cap, log⟩ =
      (⟨⟨if is_function_value v then some v else none⟩⟩, ⟨S, cap, log⟩) := by
  have hlen : lua_gettop (⟨S ++ [v], cap, log⟩ : LuaState) ≠ 0 := by
    simp [lua_gettop]
  have hlast : (⟨S ++ [v], cap, log⟩ : LuaState).stack.getLast?.getD (.atom .anil) = v := by
    simp [List.getLast?_concat]
  have hpop : lua_pop (⟨S ++ [v], cap, log⟩ : LuaState) 1 = ⟨S, cap, log⟩ := by
    simp only [lua_pop]
    have h : (S ++ [v]).length - 1 = S.length := by simp
    rw [h, take_len]
  simp only [bound_function.mk_from, if_pos hlen, hlast]
  cases hf : is_function_value v with
  | true =>
    rw [if_pos rfl, mk_lua_ref_last]
    simp
  | false =>
    rw [if_neg (by simp), hpop]
    simp

/-- C7, counterexample: an argument type whose push trait declares no
stack-cost member gets the default trait value, which is the unknown margin,
not 1: the estimated margin for such a single argument is unknown rather
than the known margin 1. -/
theorem c7_no_trait_counterexample :
    stack_space_needed none = maybe_int.mkUnknown ∧
    stack_push_each_value [stack_space_needed none] ≠ maybe_int.ofInt 1 ∧
    stack_push_each_value [stack_space_needed none] = maybe_int.mkUnknown := by
  decide

/-- C7 (amended): a type whose push trait declares no stack-cost member is
treated as unknown (the default of the `stack_space_needed` trait), which
makes the whole estimated margin unknown; the conservative fallback happens
later, when the reservation check substitutes the configured default reserve
for an unknown margin. -/
theorem c7_no_trait_amended (pre post : List maybe_int) :
    stack_space_needed none = maybe_int.mkUnknown ∧
    stack_push_each_value (pre ++ stack_space_needed none :: post) =
      maybe_int.mkUnknown := by
  refine ⟨rfl, ?_⟩
  have h : stack_space_needed none = (⟨0, true⟩ : maybe_int) := rfl
  rw [h]
  exact stack_push_each_unknown_mem pre post 0

/-- C8: the estimated margin never decreases (in the conservative order with
unknown on top) when an argument is prepended, and any argument with an
unknown declared cost anywhere in the list makes the whole margin unknown. -/
theorem c8_margin_monotonicity :
    (∀ (c : maybe_int) (costs : List maybe_int),
      (stack_push_each_value costs).le_conservative
        (stack_push_each_value (c :: costs))) ∧
    (∀ (pre post : List maybe_int) (v : Int),
      stack_push_each_value (pre ++ ⟨v, true⟩ :: post) = .mkUnknown) := by
  refine ⟨?_, stack_push_each_unknown_mem⟩
  intro c costs
  rw [maybe_int.le_conservative, stack_push_each_eq_spec, stack_push_each_eq_spec,
    spec_stack_margin, spec_stack_margin]
  cases hall : (c :: costs).any (fun x => x.unknown) with
  | true =>
    left
    rw [if_pos rfl]
    rfl
  | false =>
    have hcs : costs.any (fun x => x.unknown) = false := by
      simp only [List.any_cons, Bool.or_eq_false_iff] at hall
      exact hall.2
    right
    rw [if_neg (by simp [hcs]), if_neg (by simp)]
    refine ⟨rfl, rfl, ?_⟩
    show (spec_margin_terms 0 costs).foldr max 0 ≤
      (spec_margin_terms 0 (c :: costs)).foldr max 0
    rw [spec_margin_terms, List.foldr_cons]
    refine le_trans ?_ (le_max_right _ _)
    exact spec_margin_terms_mono costs 0 0

/-- C9: when a conversion fails two levels deep (a field of a structure
nested inside a read structure), the error record carries both context lines
in outer-to-inner order, with the innermost error message preserved intact. -/
theorem c9_error_context_accumulation (outer inner : String) (e : primer_error) :
    schema_read (.table [(outer, .table [(inner, .leaf_fail e)])]) =
      .error ⟨.in_field outer :: .in_field inner :: e.lines⟩ := rfl

/-- C10: constructing a `bound_function` from a state with an empty stack
produces an empty token and performs no pop: the state is unchanged. -/
theorem c10_capture_empty_stack (cap : Nat) (log : List FnBehavior) :
    bound_function.mk_from ⟨[], cap, log⟩ = (⟨⟨none⟩⟩, ⟨[], cap, log⟩) := rfl

end primer
